import Mathlib

/-!
Verification of the ginka-ecs-go entity/command runtime.

This file gives a shallow embedding, in Lean, of the concurrency and
data-consistency core of the repository: the splitmix-style shard hash
(`core_world_hash.go`), the sharded worker runtime and its command/tick
dispatch (`core_world.go` and the `worldRuntime` file), the transactional
data-entity mutation protocol (`data_entity_core.go`,
`data_component_core.go`, and the `EntityCore` file), and the sharded
entity store (`entity_manager.go`).  Machine integers (Go `uint64`) are
modelled as `Nat` with explicit reduction modulo `2 ^ 64` at every
operation that can overflow; Go interface values that may be nil are
modelled as `Option`; Go dynamic type assertions are modelled by a
concrete-type tag carried on each component.  Concurrency is modelled by
an explicit schedule (start/finish instants for each submitted request)
constrained exactly by what the per-shard worker loop guarantees: each
shard's single worker handles the requests routed to it one at a time,
in enqueue order.
-/

namespace Ginka

/-- Error taxonomy of the repository (`errors.go`), as a closed enumeration.
`sysFailure` stands for an arbitrary hard error produced by a
caller-supplied system handler or entity factory. -/
inductive GErr where
  | invalidEntityId
  | entityAlreadyExists
  | entityNotFound
  | componentAlreadyExists
  | componentNotFound
  | nilComponent
  | nilEntity
  | idMismatch
  | existingNotDataComponent
  | systemAlreadyRegistered
  | unhandledCommand
  | worldNotRunning
  | worldAlreadyRunning
  | sysFailure
  deriving DecidableEq

/-- The modulus of Go's `uint64` arithmetic. -/
def M64 : Nat := 2 ^ 64

/-- Embedding of `hashEntityId` (`core_world_hash.go`): a splitmix64-style
finalizer on the entity id.  Additions and multiplications reduce modulo
`2 ^ 64`; xors and right shifts of values below `2 ^ 64` cannot overflow. -/
def hashEntityId (id : Nat) : Nat :=
  let x0 := (id + 0x9e3779b97f4a7c15) % M64
  let x1 := ((x0 ^^^ (x0 >>> 30)) * 0xbf58476d1ce4e5b9) % M64
  let x2 := ((x1 ^^^ (x1 >>> 27)) * 0x94d049bb133111eb) % M64
  x2 ^^^ (x2 >>> 31)

/-- The bit-smearing body of `nextPow2` (`core_world_hash.go`): after
`n--`, the value is or-ed with its right shifts by 1, 2, 4, 8, 16, 32. -/
def smear (m : Nat) : Nat :=
  let m1 := m ||| (m >>> 1)
  let m2 := m1 ||| (m1 >>> 2)
  let m3 := m2 ||| (m2 >>> 4)
  let m4 := m3 ||| (m3 >>> 8)
  let m5 := m4 ||| (m4 >>> 16)
  m5 ||| (m5 >>> 32)

/-- Embedding of `nextPow2` (`core_world_hash.go`): round up to the next
power of two.  The final `+ 1` is a `uint64` increment, hence the modulus. -/
def nextPow2 (n : Nat) : Nat :=
  if n = 0 then 1 else (smear (n - 1) + 1) % M64

/-- Embedding of the exported `ShardIndex` (`core_world_hash.go`):
non-positive shard counts map to shard 0; a non-power-of-two count is
rounded up with `nextPow2`; the hash is masked with `count - 1`. -/
def ShardIndex (entityId : Nat) (shardCount : Int) : Nat :=
  if shardCount ≤ 0 then 0
  else
    let n := shardCount.toNat
    let n2 := if n &&& (n - 1) ≠ 0 then nextPow2 n else n
    hashEntityId entityId &&& (n2 - 1)

/-- The shard mask computed by `NewEntityManager` (`entity_manager.go`):
a non-positive count falls back to 128 (`defaultEntityShardCount`), the
count is rounded up with `nextPow2` (with a defensive fallback to 128 if
that yields zero), and the mask is `count - 1`. -/
def managerShardMask (shardCount : Int) : Nat :=
  let sc : Nat := if shardCount ≤ 0 then 128 else shardCount.toNat
  let count := nextPow2 sc
  let count2 := if count = 0 then 128 else count
  count2 - 1

/-- The shard index computed internally by `MapEntityManager.shard`
(`entity_manager.go`): `hashEntityId(id) & m.shardMask`. -/
def managerShardIdx (id : Nat) (shardCount : Int) : Nat :=
  hashEntityId id &&& managerShardMask shardCount

/-- The shard mask computed by `CoreWorld.finalizeLocked` for the
dispatcher runtime: a non-positive configured count falls back to 256
(`defaultShardCount`); `nextPow2` rounds up; a zero rounded count is an
error (`none`); otherwise the mask is `count - 1`. -/
def runtimeShardMask (shardCount : Int) : Option Nat :=
  let sc : Nat := if shardCount ≤ 0 then 256 else shardCount.toNat
  let count := nextPow2 sc
  if count = 0 then none else some (count - 1)

/-- The shard index computed by `CoreWorld.Submit` for an entity id:
`hashEntityId(id) & rt.shardMask`. -/
def runtimeShardIdx (id : Nat) (shardCount : Int) : Option Nat :=
  (runtimeShardMask shardCount).map (fun m => hashEntityId id &&& m)

/-- The shard a submitted command is routed to by `CoreWorld.Submit`:
`hashEntityId(id) & mask` for the runtime's fixed mask. -/
def shardOf (mask id : Nat) : Nat := hashEntityId id &&& mask

/-- Schedule model of the sharded worker pool started by
`CoreWorld.startLocked`.  `ids` lists the target entity ids of the
submitted commands in submission (enqueue) order; `st k` / `fn k` are the
instants at which the worker's handler invocation for the `k`-th
submission starts and finishes.  The two conjuncts are exactly what the
code guarantees: an invocation takes non-negative time, and each shard's
single worker (`for req := range shard.ch`) finishes a request before
starting the next request of the same shard — requests `p < q` on one
shard with no same-shard request in between are handled back to back. -/
def SerialPerShard (ids : List Nat) (mask : Nat) (st fn : Nat → Nat) : Prop :=
  (∀ k, st k ≤ fn k) ∧
  ∀ p q, p < q → q < ids.length →
    shardOf mask (ids.getD p 0) = shardOf mask (ids.getD q 0) →
    (∀ r, p < r → r < q → shardOf mask (ids.getD r 0) ≠ shardOf mask (ids.getD p 0)) →
    fn p ≤ st q

/-- The result of the first failing handler in a list of handler results,
as produced by the system loops in `dispatchCommand`: the loop returns
the first non-nil error and otherwise falls through. -/
def firstErr : List (Option GErr) → Option GErr
  | [] => none
  | none :: rest => firstErr rest
  | some e :: _ => some e

/-- How many handlers a loop over the given results actually invokes:
every handler up to and including the first failing one. -/
def invokedIn : List (Option GErr) → Nat
  | [] => 0
  | none :: rest => invokedIn rest + 1
  | some _ :: _ => 1

/-- Embedding of `dispatchCommand` in the sharded `worldRuntime`: given
the handler results of the handles-all systems (`rt.cmdAll`, in
registration order) and of the systems subscribed to the submitted
command's type (`rt.cmdBy[cmd.Type()]`), the dispatch returns
`UnhandledCommand` (wrapped) when both lists are empty, and otherwise
runs the handles-all loop then the subscribed loop, returning the first
non-nil error, or nil when every handler returned nil.  The context is
modelled as not cancelled. -/
def dispatchCommand (allRes subRes : List (Option GErr)) : Option GErr :=
  if allRes.isEmpty && subRes.isEmpty then some .unhandledCommand
  else
    match firstErr allRes with
    | some e => some e
    | none => firstErr subRes

/-- Number of system handlers `dispatchCommand` invokes: none when no
system is registered for the command; otherwise the handles-all loop runs
up to its first error, and only if it has none does the subscribed loop
run. -/
def dispatchInvoked (allRes subRes : List (Option GErr)) : Nat :=
  if allRes.isEmpty && subRes.isEmpty then 0
  else
    match firstErr allRes with
    | some _ => invokedIn allRes
    | none => allRes.length + invokedIn subRes

/-- Embedding of the system loop in `dispatchTickShard`: run the
registered per-shard tick systems in order against shard `shardIdx`,
recording one invocation event `(system index, shard index)` per
`TickShard` call and stopping at the first error.  A system is modelled
by the error its `TickShard` hook returns for each shard index; the
context is modelled as not cancelled. -/
def runTickSystems : List (Nat → Option GErr) → Nat → Nat → List (Nat × Nat) × Option GErr
  | [], _, _ => ([], none)
  | sys :: rest, shardIdx, sysIdx =>
    match sys shardIdx with
    | some e => ([(sysIdx, shardIdx)], some e)
    | none =>
      let r := runTickSystems rest shardIdx (sysIdx + 1)
      ((sysIdx, shardIdx) :: r.1, r.2)

/-- Embedding of `dispatchTickShard` for one shard: the tick-system loop
starting at system index 0. -/
def dispatchTickShard (systems : List (Nat → Option GErr)) (shardIdx : Nat) :
    List (Nat × Nat) × Option GErr :=
  runTickSystems systems shardIdx 0

/-- What the shard workers produce for one `tickOnce` broadcast: the
enqueue loop in `worldRuntime.tickOnce` sends one tick request per shard
index in `[0, c)`, and each shard's worker executes `dispatchTickShard`
for its own index. -/
def shardTickOutcomes (c : Nat) (systems : List (Nat → Option GErr)) :
    List (List (Nat × Nat) × Option GErr) :=
  (List.range c).map (dispatchTickShard systems)

/-- Embedding of the response-collection loop of `worldRuntime.tickOnce`:
responses are received in shard-index order; a non-nil response is
returned immediately.  The result is the value `tickOnce` returns paired
with how many responses were received before returning. -/
def receiveLoop : List (Option GErr) → Option GErr × Nat
  | [] => (none, 0)
  | some e :: _ => (some e, 1)
  | none :: rest =>
    let r := receiveLoop rest
    (r.1, r.2 + 1)

/-- The error (or nil) returned by `worldRuntime.tickOnce` with `c`
shards and the given registered tick systems. -/
def tickOnceResult (c : Nat) (systems : List (Nat → Option GErr)) : Option GErr :=
  (receiveLoop ((shardTickOutcomes c systems).map Prod.snd)).1

/-- The number of shard responses `worldRuntime.tickOnce` receives before
returning. -/
def tickOnceReceived (c : Nat) (systems : List (Nat → Option GErr)) : Nat :=
  (receiveLoop ((shardTickOutcomes c systems).map Prod.snd)).2

/-- All `TickShard` invocation events of one `tickOnce` broadcast, over
every shard. -/
def tickInvocations (c : Nat) (systems : List (Nat → Option GErr)) : List (Nat × Nat) :=
  ((shardTickOutcomes c systems).map Prod.fst).flatten

/-- A single tick system whose `TickShard` hook fails on shard 0 and
succeeds on every other shard (used to exercise the tick error path). -/
def tickFailShard0 : Nat → Option GErr :=
  fun i => if i == 0 then some .sysFailure else none

/-- The mutable per-runtime state `CoreWorld.Run` materializes
(`worldRuntime`): for sequential lifecycle reasoning only its `stopping`
flag is relevant. -/
structure RtState where
  stopping : Bool
  deriving DecidableEq

/-- Lifecycle-relevant state of a `CoreWorld` (`core_world.go`): the
`running` flag and the current runtime (`w.rt`, `none` when the world is
not materialized). -/
structure WorldState where
  running : Bool
  rt : Option RtState
  deriving DecidableEq

/-- A freshly constructed world (`NewCoreWorld`): not running, no runtime. -/
def initWorld : WorldState := { running := false, rt := none }

/-- Embedding of `CoreWorld.Run` (sequential semantics, all steps under
`w.mu`): fails with `WorldAlreadyRunning` when running, otherwise
materializes a fresh runtime (whose `stopping` flag starts false) and
marks the world running. -/
def runW (s : WorldState) : Option GErr × WorldState :=
  if s.running then (some .worldAlreadyRunning, s)
  else (none, { running := true, rt := some { stopping := false } })

/-- Embedding of `CoreWorld.Stop`: a no-op success when not running;
otherwise clears the running flag, detaches the runtime (`w.rt = nil`)
and stops it, returning nil. -/
def stopW (s : WorldState) : Option GErr × WorldState :=
  if s.running then (none, { running := false, rt := none }) else (none, s)

/-- Embedding of `CoreWorld.Submit` for a command targeting entity `id`
(sequential semantics, context not cancelled, command non-nil): a zero id
fails with `InvalidEntityId`; a missing runtime fails with
`WorldNotRunning`; `tryAcquire` fails with `WorldNotRunning` when the
runtime is stopping; otherwise the dispatch outcome `dres` is returned.
The world state is unchanged in every case. -/
def submitW (id : Nat) (dres : Option GErr) (s : WorldState) : Option GErr × WorldState :=
  if id = 0 then (some .invalidEntityId, s)
  else
    match s.rt with
    | none => (some .worldNotRunning, s)
    | some r => if r.stopping then (some .worldNotRunning, s) else (dres, s)

/-- Invariant of sequential `CoreWorld` lifecycles: a world that is not
running holds no runtime. -/
def WorldInv (s : WorldState) : Prop := s.running = false → s.rt = none

/-- A component as stored in an entity's component map: its declared
`ComponentType`, a tag standing for its Go concrete (dynamic) type,
whether it implements the `DataComponent` interface, and its version
counter (`DataComponentCore.VersionValue`; meaningless when `isData` is
false). -/
structure Component where
  ctype : Nat
  concrete : Nat
  isData : Bool
  version : Nat
  deriving DecidableEq

/-- State of a `DataEntityCore`: the components in insertion order (the
`components` map keyed by `ComponentType` together with the
`componentTypes` order list), and the dirty types in first-mark order
(the `dirty` set together with the `dirtyTypes` order list). -/
structure DataEntityRec where
  comps : List Component
  dirty : List Nat
  deriving DecidableEq

/-- Embedding of `EntityCore.getComponentUnlocked`: look up the component
stored under type `t`. -/
def getComponent (e : DataEntityRec) (t : Nat) : Option Component :=
  e.comps.find? (fun x => x.ctype == t)

/-- Embedding of `DataEntityCore.markDirtyUnlocked`: a type already in
the dirty set is left alone, otherwise it is appended to the ordered
dirty list and added to the set. -/
def markDirty (e : DataEntityRec) (t : Nat) : DataEntityRec :=
  if t ∈ e.dirty then e else { e with dirty := e.dirty ++ [t] }

/-- In-place version bump of the component stored under type `t`
(`DataComponentCore.BumpVersion` through the stored pointer). -/
def bumpAt (comps : List Component) (t : Nat) : List Component :=
  comps.map (fun x => if x.ctype == t then { x with version := x.version + 1 } else x)

/-- Embedding of `DataEntityCore.getForUpdateUnlocked`: a missing
component is not found; a component that is not a `DataComponent` is
returned without side effects; a `DataComponent` has its version bumped
by one and its type marked dirty, and the (bumped) component is
returned. -/
def getForUpdate (e : DataEntityRec) (t : Nat) : Option Component × DataEntityRec :=
  match getComponent e t with
  | none => (none, e)
  | some c =>
    if c.isData then
      (some { c with version := c.version + 1 },
        markDirty { e with comps := bumpAt e.comps t } t)
    else (some c, e)

/-- Embedding of the generic accessor `getForUpdateDirect[T]`
(`data_component_core.go`): first a plain `Get`, then the dynamic cast to
the caller's expected concrete type `expected` — a mismatch returns
not-found with no side effect — and only then the side-effecting
`GetForUpdate` on the entity. -/
def getForUpdateDirect (expected : Nat) (e : DataEntityRec) (t : Nat) :
    Bool × DataEntityRec :=
  match getComponent e t with
  | none => (false, e)
  | some c =>
    if c.concrete == expected then
      match getForUpdate e t with
      | (some _, e2) => (true, e2)
      | (none, e2) => (false, e2)
    else (false, e)

/-- The version counter currently stored for type `t`, if any. -/
def versionAt (e : DataEntityRec) (t : Nat) : Option Nat :=
  (getComponent e t).map Component.version

/-- Embedding of `EntityCore.addComponentUnlocked` for a non-nil
component: fails if a component of the same type exists, otherwise
appends (the `components` map gains the key and `componentTypes` gains
the type at the end). -/
def addComponent (e : DataEntityRec) (c : Component) : Option GErr × DataEntityRec :=
  match getComponent e c.ctype with
  | some _ => (some .componentAlreadyExists, e)
  | none => (none, { e with comps := e.comps ++ [c] })

/-- Replacement of the component stored under type `t` by `c2`
(`e.components[t] = c` with the `componentTypes` order list untouched). -/
def replaceComp (comps : List Component) (t : Nat) (c2 : Component) : List Component :=
  comps.map (fun x => if x.ctype == t then c2 else x)

/-- Embedding of `DataEntityCore.setDataUnlocked`.  A nil component fails
with `NilComponent`.  If a component of the same type exists it must be a
`DataComponent`; the new component takes the old version
(`c.SetVersion(existing.Version())`) bumped by one, replaces the old one
in place, and the type is marked dirty.  Otherwise the component is
attached (`addComponentUnlocked`), its version is bumped through the
stored pointer, and the type is marked dirty. -/
def setData (e : DataEntityRec) (c? : Option Component) : Option GErr × DataEntityRec :=
  match c? with
  | none => (some .nilComponent, e)
  | some c =>
    match getComponent e c.ctype with
    | some ex =>
      if ex.isData then
        (none, markDirty
          { e with comps := replaceComp e.comps c.ctype { c with version := ex.version + 1 } }
          c.ctype)
      else (some .existingNotDataComponent, e)
    | none =>
      match addComponent e c with
      | (some err, e1) => (some err, e1)
      | (none, e1) => (none, markDirty { e1 with comps := bumpAt e1.comps c.ctype } c.ctype)

/-- Embedding of `DataEntityCore.getDataUnlocked`: the stored component
of type `t` when it exists and implements `DataComponent`. -/
def getData (e : DataEntityRec) (t : Nat) : Option Component :=
  match getComponent e t with
  | none => none
  | some c => if c.isData then some c else none

/-- Embedding of `DataEntityCore.dirtyDataComponentsUnlocked`: walk the
dirty types in first-mark order and keep the stored component of each
type that resolves to a `DataComponent`, silently skipping the rest. -/
def dirtyDataComponents (e : DataEntityRec) : List Component :=
  e.dirty.filterMap (getData e)

/-- An entity as the sharded store sees it: only its reported `Id()`
matters for `Create`/`Add`. -/
structure EntRec where
  id : Nat
  deriving DecidableEq

/-- Outcome of the caller-supplied entity factory inside
`MapEntityManager.Create`: a hard error, a nil entity, or a constructed
entity. -/
inductive FactoryOut where
  | fail (e : GErr)
  | nilEnt
  | made (ent : EntRec)
  deriving DecidableEq

/-- Embedding of `MapEntityManager.Add` (context not cancelled).  The
store is the association of ids to entities over all shards, in insertion
order; the per-shard locking serializes these steps.  A nil entity and a
zero id fail; a present id fails with `EntityAlreadyExists`; otherwise
the entity is inserted. -/
def addEnt (store : List (Nat × EntRec)) (ent? : Option EntRec) :
    Option GErr × List (Nat × EntRec) :=
  match ent? with
  | none => (some .nilEntity, store)
  | some ent =>
    if ent.id = 0 then (some .invalidEntityId, store)
    else if (store.lookup ent.id).isSome then (some .entityAlreadyExists, store)
    else (none, store ++ [(ent.id, ent)])

/-- Embedding of `MapEntityManager.Create` (context not cancelled,
factory present).  After the zero-id check the factory runs — before any
existence check — then its result is validated (non-error, non-nil,
matching id) and handed to `Add`.  The first output records whether the
factory was invoked. -/
def createEnt (factory : Nat → FactoryOut) (store : List (Nat × EntRec)) (id : Nat) :
    Bool × Option GErr × List (Nat × EntRec) :=
  if id = 0 then (false, some .invalidEntityId, store)
  else
    match factory id with
    | .fail e => (true, some e, store)
    | .nilEnt => (true, some .nilEntity, store)
    | .made ent =>
      if ent.id ≠ id then (true, some .idMismatch, store)
      else
        match addEnt store (some ent) with
        | (some err, st) => (true, some err, st)
        | (none, st) => (true, none, st)

/-- Or-ing an all-ones value with any of its right shifts is the
identity. -/
theorem or_shift_sub_one (k s : Nat) : (2 ^ k - 1) ||| ((2 ^ k - 1) >>> s) = 2 ^ k - 1 := by
  apply Nat.eq_of_testBit_eq
  intro i
  simp only [Nat.testBit_or, Nat.testBit_shiftRight, Nat.testBit_two_pow_sub_one]
  by_cases h : i < k
  · simp [h]
  · have h2 : ¬ s + i < k := by omega
    simp [h, h2]

/-- The bit smear fixes all-ones values. -/
theorem smear_two_pow_sub_one (k : Nat) : smear (2 ^ k - 1) = 2 ^ k - 1 := by
  simp only [smear]
  rw [or_shift_sub_one, or_shift_sub_one, or_shift_sub_one, or_shift_sub_one,
    or_shift_sub_one, or_shift_sub_one]

/-- A positive value with `n & (n-1) = 0` is a power of two. -/
theorem pow2_of_land_pred_eq_zero {n : Nat} (hn : 0 < n) (h : n &&& (n - 1) = 0) :
    ∃ k, n = 2 ^ k := by
  refine ⟨n.size - 1, ?_⟩
  have hpos : 0 < n.size := Nat.size_pos.mpr hn
  have hk1 : 2 ^ (n.size - 1) ≤ n := Nat.lt_size.mp (by omega)
  have hk2 : n < 2 ^ n.size := Nat.lt_size_self n
  by_contra hne
  have hlt : 2 ^ (n.size - 1) < n := lt_of_le_of_ne hk1 (fun hh => hne hh.symm)
  have hsz : n.size = (n.size - 1) + 1 := by omega
  rw [hsz, Nat.pow_succ] at hk2
  have hdiv1 : n / 2 ^ (n.size - 1) = 1 := by
    apply Nat.div_eq_of_lt_le (by simpa using hk1)
    simpa [Nat.mul_comm] using hk2
  have hdiv2 : (n - 1) / 2 ^ (n.size - 1) = 1 := by
    apply Nat.div_eq_of_lt_le (by simp; omega)
    simp
    omega
  have hb1 : n.testBit (n.size - 1) = true := by
    rw [Nat.testBit_to_div_mod, hdiv1]
    simp
  have hb2 : (n - 1).testBit (n.size - 1) = true := by
    rw [Nat.testBit_to_div_mod, hdiv2]
    simp
  have hcontra := congrArg (fun x => Nat.testBit x (n.size - 1)) h
  simp [Nat.testBit_and, hb1, hb2] at hcontra

/-- The rounding helper fixes powers of two below `2 ^ 64`. -/
theorem nextPow2_two_pow {k : Nat} (hk : k < 64) : nextPow2 (2 ^ k) = 2 ^ k := by
  have hpos : (0:Nat) < 2 ^ k := Nat.two_pow_pos k
  unfold nextPow2
  have hsucc : 2 ^ k - 1 + 1 = 2 ^ k := by omega
  rw [if_neg hpos.ne', smear_two_pow_sub_one, hsucc]
  exact Nat.mod_eq_of_lt (by
    have h2 : (2:Nat) ^ k < 2 ^ 64 := Nat.pow_lt_pow_right (by norm_num) hk
    simpa [M64] using h2)

/-- One smear step keeps a value below a power-of-two bound. -/
theorem or_shift_lt {m b : Nat} (h : m < 2 ^ b) (s : Nat) : (m ||| (m >>> s)) < 2 ^ b :=
  Nat.or_lt_two_pow h
    (lt_of_le_of_lt (by rw [Nat.shiftRight_eq_div_pow]; exact Nat.div_le_self _ _) h)

/-- The full smear keeps a value below a power-of-two bound. -/
theorem smear_lt {m b : Nat} (h : m < 2 ^ b) : smear m < 2 ^ b := by
  simp only [smear]
  exact or_shift_lt (or_shift_lt (or_shift_lt (or_shift_lt (or_shift_lt
    (or_shift_lt h 1) 2) 4) 8) 16) 32

/-- For shard counts in Go's positive `int` range the `uint64` increment
in `nextPow2` does not wrap, and the result is positive. -/
theorem nextPow2_eq_of_lt {n : Nat} (hn : n ≠ 0) (h : n < 2 ^ 63) :
    nextPow2 n = smear (n - 1) + 1 ∧ 0 < nextPow2 n ∧ nextPow2 n ≤ 2 ^ 63 := by
  have h1 : n - 1 < 2 ^ 63 := by omega
  have h2 : smear (n - 1) < 2 ^ 63 := smear_lt h1
  unfold nextPow2
  rw [if_neg hn]
  have h3 : smear (n - 1) + 1 < M64 := by
    have h4 : (2:Nat) ^ 63 < 2 ^ 64 := by norm_num
    unfold M64
    omega
  rw [Nat.mod_eq_of_lt h3]
  exact ⟨rfl, by omega, by omega⟩

/-- C8. For every entity id and every shard count in Go's positive `int`
range, the exported `ShardIndex` equals `hashEntityId(id)` masked with
`nextPow2(shardCount) - 1` — a non-power-of-two count being rounded up to
the next power of two — and coincides with the shard index the entity
manager (`MapEntityManager.shard`) and the dispatcher runtime
(`finalizeLocked` / `Submit`) compute internally for the same id and
configured shard count; the mapping depends only on `id` and
`shardCount`, hence is deterministic and stable. -/
theorem shard_index_consistent (id : Nat) (c : Int) (h0 : 0 < c) (h1 : c < 2 ^ 63) :
    ShardIndex id c = hashEntityId id &&& (nextPow2 c.toNat - 1)
    ∧ managerShardIdx id c = ShardIndex id c
    ∧ runtimeShardIdx id c = some (ShardIndex id c) := by
  have hc0 : ¬ c ≤ 0 := by omega
  have hn0 : c.toNat ≠ 0 := by omega
  have hnlt : c.toNat < 2 ^ 63 := by omega
  obtain ⟨hval, hpos, hle⟩ := nextPow2_eq_of_lt hn0 hnlt
  have key : ShardIndex id c = hashEntityId id &&& (nextPow2 c.toNat - 1) := by
    simp only [ShardIndex]
    rw [if_neg hc0]
    by_cases hb : c.toNat &&& (c.toNat - 1) ≠ 0
    · rw [if_pos hb]
    · push_neg at hb
      obtain ⟨k, hk⟩ := pow2_of_land_pred_eq_zero (Nat.pos_of_ne_zero hn0) hb
      have hk64 : k < 64 := by
        by_contra hh
        push_neg at hh
        have hge : (2:Nat) ^ 63 ≤ 2 ^ k := Nat.pow_le_pow_right (by norm_num) (by omega)
        omega
      simp only [ne_eq, hb, not_true_eq_false, if_false]
      rw [hk, nextPow2_two_pow hk64]
  refine ⟨key, ?_, ?_⟩
  · simp only [managerShardIdx, managerShardMask]
    rw [if_neg hc0, if_neg (by omega : ¬ nextPow2 c.toNat = 0), key]
  · simp only [runtimeShardIdx, runtimeShardMask]
    rw [if_neg hc0, if_neg (by omega : ¬ nextPow2 c.toNat = 0)]
    simp only [Option.map_some']
    rw [key]

/-- Witness for C8 at the concrete id 11 and shard count 6. -/
theorem shard_index_consistent_witness :
    ShardIndex 11 6 = hashEntityId 11 &&& (nextPow2 (Int.toNat 6) - 1)
    ∧ managerShardIdx 11 6 = ShardIndex 11 6
    ∧ runtimeShardIdx 11 6 = some (ShardIndex 11 6) :=
  shard_index_consistent 11 6 (by decide) (by decide)

/-- Chaining the back-to-back worker guarantee: any two same-shard
requests (not only adjacent ones) are handled in enqueue order. -/
theorem serial_chain {ids : List Nat} {mask : Nat} {st fn : Nat → Nat}
    (h : SerialPerShard ids mask st fn) :
    ∀ n p q, q - p = n → p < q → q < ids.length →
      shardOf mask (ids.getD p 0) = shardOf mask (ids.getD q 0) → fn p ≤ st q := by
  intro n
  induction n using Nat.strong_induction_on with
  | _ n ih =>
    intro p q hn hpq hq hsh
    by_cases hex : ∃ r, p < r ∧ r < q ∧ shardOf mask (ids.getD r 0) = shardOf mask (ids.getD p 0)
    · obtain ⟨r, hpr, hrq, hshr⟩ := hex
      have h1 : fn p ≤ st r := ih (r - p) (by omega) p r rfl hpr (by omega) hshr.symm
      have h2 : fn r ≤ st q := ih (q - r) (by omega) r q rfl hrq hq (hshr.trans hsh)
      exact le_trans h1 (le_trans (h.1 r) h2)
    · push_neg at hex
      exact h.2 p q hpq hq hsh hex

/-- C1. In every schedule compatible with the sharded worker pool, two
commands targeting the same entity id are handled without overlap and in
submission order: the earlier submission's handler finishes before the
later one's starts (the id hashes to the same shard both times, and that
shard's single worker drains its queue serially).  Moreover a schedule
exists in which two commands whose entity ids route to different shards
execute concurrently (overlapping intervals). -/
theorem serial_per_entity_parallel_across_shards :
    (∀ (ids : List Nat) (mask : Nat) (st fn : Nat → Nat),
        SerialPerShard ids mask st fn →
        ∀ p q, p < q → q < ids.length → ids.getD p 0 = ids.getD q 0 →
          fn p ≤ st q)
    ∧ (∃ (ids : List Nat) (mask : Nat) (st fn : Nat → Nat),
        SerialPerShard ids mask st fn ∧
        ∃ p q, p < q ∧ q < ids.length ∧
          shardOf mask (ids.getD p 0) ≠ shardOf mask (ids.getD q 0) ∧
          st p < fn q ∧ st q < fn p) := by
  constructor
  · intro ids mask st fn h p q hpq hq hid
    exact serial_chain h (q - p) p q rfl hpq hq (by rw [hid])
  · refine ⟨[1, 2], 1, fun _ => 0, fun _ => 1, ⟨fun k => Nat.zero_le 1, ?_⟩, 0, 1, ?_⟩
    · intro p q hpq hq hsh hmid
      have hq2 : q < 2 := by simpa using hq
      have hp0 : p = 0 := by omega
      have hq1 : q = 1 := by omega
      subst hp0
      subst hq1
      exact absurd hsh (by decide)
    · exact ⟨by decide, by decide, by decide, by decide, by decide⟩

/-- Witness for C1 at a concrete two-command schedule on one shard:
commands 0 and 1 both target entity 5, the worker handles command `k`
during `[2k, 2k+1]`, and the chained guarantee yields `1 ≤ 2`. -/
theorem serial_per_entity_witness : (1 : Nat) ≤ 2 :=
  serial_per_entity_parallel_across_shards.1 [5, 5] 1 (fun k => 2 * k) (fun k => 2 * k + 1)
    ⟨fun k => by show 2 * k ≤ 2 * k + 1; omega, by
      intro p q hpq hq hsh hmid
      have hq2 : q < 2 := by simpa using hq
      have hp0 : p = 0 := by omega
      have hq1 : q = 1 := by omega
      subst hp0
      subst hq1
      show 2 * 0 + 1 ≤ 2 * 1
      omega⟩
    0 1 (by decide) (by decide) rfl

/-- The first-error scan of an appended result list runs the left list
first. -/
theorem firstErr_append (a b : List (Option GErr)) :
    firstErr (a ++ b)
      = match firstErr a with
        | some e => some e
        | none => firstErr b := by
  induction a with
  | nil => simp [firstErr]
  | cons x rest ih => cases x <;> simp [firstErr, ih]

/-- With an error in the left list, the appended scan invokes only the
left list's prefix. -/
theorem invokedIn_append_err {a : List (Option GErr)} (b : List (Option GErr))
    (h : (firstErr a).isSome) : invokedIn (a ++ b) = invokedIn a := by
  induction a with
  | nil => simp [firstErr] at h
  | cons x rest ih =>
    cases x with
    | none =>
      have h2 : (firstErr rest).isSome := by simpa [firstErr] using h
      simp [invokedIn, ih h2]
    | some e => simp [invokedIn]

/-- With no error in the left list, the appended scan invokes the whole
left list and continues into the right one. -/
theorem invokedIn_append_ok {a : List (Option GErr)} (b : List (Option GErr))
    (h : firstErr a = none) : invokedIn (a ++ b) = a.length + invokedIn b := by
  induction a with
  | nil => simp
  | cons x rest ih =>
    cases x with
    | none =>
      have h2 : firstErr rest = none := by simpa [firstErr] using h
      simp [invokedIn, ih h2]
      omega
    | some e => simp [firstErr] at h

/-- An error-free scan invokes every handler. -/
theorem invokedIn_all {l : List (Option GErr)} (h : firstErr l = none) :
    invokedIn l = l.length := by
  induction l with
  | nil => rfl
  | cons x rest ih =>
    cases x with
    | none =>
      have h2 : firstErr rest = none := by simpa [firstErr] using h
      simp [invokedIn, ih h2]
    | some e => simp [firstErr] at h

/-- Counterexample for C2 as stated.  First, with a single handles-all
system that returns `UnhandledCommand` and a subscribed system that would
succeed, the claim predicts the next eligible system is tried and
dispatch succeeds; the code instead aborts at the first system, returns
`UnhandledCommand` to the caller, and never invokes the second system
(one invocation only).  Second, with a succeeding handles-all system
followed by one returning a hard error, the claim predicts the first
success ends dispatch; the code runs both and returns the error. -/
theorem dispatch_counterexample :
    dispatchCommand [some .unhandledCommand] [none] = some .unhandledCommand
    ∧ dispatchInvoked [some .unhandledCommand] [none] = 1
    ∧ dispatchCommand [none, some .sysFailure] [] = some .sysFailure :=
  ⟨rfl, rfl, rfl⟩

/-- C2 as amended.  During Submit dispatch the handles-all systems are
invoked first in registration order, then the systems subscribed to the
command's type; a success does not end dispatch — every eligible system
is invoked until one returns a non-nil error; the first non-nil error,
`UnhandledCommand` included, aborts dispatch and is returned to the
caller unchanged; when every eligible system succeeds all of them were
invoked and dispatch succeeds; and when no system is registered for the
command at all, dispatch returns `UnhandledCommand`. -/
theorem dispatch_amended (allRes subRes : List (Option GErr)) :
    (allRes = [] → subRes = [] → dispatchCommand allRes subRes = some .unhandledCommand)
    ∧ (allRes ≠ [] ∨ subRes ≠ [] →
        dispatchCommand allRes subRes = firstErr (allRes ++ subRes)
        ∧ dispatchInvoked allRes subRes = invokedIn (allRes ++ subRes)
        ∧ (firstErr (allRes ++ subRes) = none →
            dispatchInvoked allRes subRes = allRes.length + subRes.length)) := by
  constructor
  · intro h1 h2
    subst h1
    subst h2
    rfl
  · intro hne
    have hcond : (allRes.isEmpty && subRes.isEmpty) = false := by
      rcases hne with h | h <;> cases allRes <;> cases subRes <;> simp_all
    have hd : dispatchCommand allRes subRes = firstErr (allRes ++ subRes) := by
      rw [dispatchCommand, hcond, firstErr_append]
      simp
    have hi : dispatchInvoked allRes subRes = invokedIn (allRes ++ subRes) := by
      rw [dispatchInvoked, hcond]
      simp only [Bool.false_eq_true, if_false]
      cases hfe : firstErr allRes with
      | some e => rw [invokedIn_append_err _ (by simp [hfe])]
      | none => rw [invokedIn_append_ok _ hfe]
    refine ⟨hd, hi, fun hok => ?_⟩
    rw [hi, invokedIn_all hok, List.length_append]

/-- Witness for C2's amended dispatch characterization with one
succeeding system in each list. -/
theorem dispatch_amended_witness :
    dispatchCommand [none] [none] = firstErr (([none] : List (Option GErr)) ++ [none])
    ∧ dispatchInvoked [none] [none] = invokedIn (([none] : List (Option GErr)) ++ [none])
    ∧ (firstErr (([none] : List (Option GErr)) ++ [none]) = none →
        dispatchInvoked [none] [none]
          = ([none] : List (Option GErr)).length + ([none] : List (Option GErr)).length) :=
  (dispatch_amended [none] [none]).2 (Or.inl (by simp))

/-- The response-collection loop returns the first error and counts the
responses received up to and including it. -/
theorem receiveLoop_eq (l : List (Option GErr)) : receiveLoop l = (firstErr l, invokedIn l) := by
  induction l with
  | nil => rfl
  | cons x rest ih => cases x <;> simp [receiveLoop, firstErr, invokedIn, ih]

/-- A nil first error means every result in the list is nil. -/
theorem firstErr_none_iff (l : List (Option GErr)) :
    firstErr l = none ↔ ∀ x ∈ l, x = none := by
  induction l with
  | nil => simp [firstErr]
  | cons x rest ih => cases x <;> simp [firstErr, ih]

/-- An error-free tick-system loop invokes every system exactly once,
tagging invocations with consecutive system indices from `base`. -/
theorem runTickSystems_ok (systems : List (Nat → Option GErr)) (i : Nat) :
    ∀ base, (runTickSystems systems i base).2 = none →
      (runTickSystems systems i base).1
        = (List.range systems.length).map (fun j => (base + j, i)) := by
  induction systems with
  | nil => intro base _; simp [runTickSystems]
  | cons sys rest ih =>
    intro base h
    cases hs : sys i with
    | some e =>
      rw [runTickSystems] at h
      simp [hs] at h
    | none =>
      rw [runTickSystems] at h ⊢
      simp only [hs] at h ⊢
      rw [ih (base + 1) h]
      simp only [List.length_cons]
      rw [List.range_succ_eq_map]
      simp only [List.map_cons, List.map_map, Nat.add_zero]
      congr 1
      apply List.map_congr_left
      intro a _
      have harith : base + 1 + a = base + (a + 1) := by omega
      simp [Function.comp, harith]

/-- Filtering a flattened list of lists flattens the filtered pieces. -/
theorem filter_flatten_eq {α : Type} (p : α → Bool) (l : List (List α)) :
    l.flatten.filter p = (l.map (List.filter p)).flatten := by
  induction l with
  | nil => rfl
  | cons x rest ih => simp [List.filter_append, ih]

/-- Filtering the range below `S` for one value `s < S` keeps exactly
`[s]`. -/
theorem range_filter_eq {S s : Nat} (hs : s < S) :
    (List.range S).filter (fun j => j == s) = [s] := by
  induction S with
  | zero => omega
  | succ n ihn =>
    rw [List.range_succ, List.filter_append]
    by_cases h : s < n
    · rw [ihn h]
      have hne : (n == s) = false := by simp; omega
      simp [hne]
    · have hs2 : s = n := by omega
      subst hs2
      have hnil : (List.range s).filter (fun j => j == s) = [] := by
        rw [List.filter_eq_nil_iff]
        intro a ha
        simp only [List.mem_range] at ha
        simp
        omega
      rw [hnil]
      simp

/-- Flattening singleton lists is a map. -/
theorem flatten_singletons {α β : Type} (f : α → β) (l : List α) :
    (l.map (fun a => [f a])).flatten = l.map f := by
  induction l with
  | nil => rfl
  | cons x rest ih => simp [ih]

/-- C3. When a single `tickOnce` pass over `c` shards completes without
error, every registered per-shard tick system's `TickShard` hook was
invoked exactly `c` times — once for each shard index in `[0, c)`, in
shard order — and `tickOnce` returned only after receiving all `c` shard
responses. -/
theorem tick_once_invokes_each_shard (c : Nat) (systems : List (Nat → Option GErr))
    (h : tickOnceResult c systems = none) :
    (∀ s, s < systems.length →
      ((tickInvocations c systems).filter (fun p => p.1 == s)).map Prod.snd = List.range c)
    ∧ tickOnceReceived c systems = c := by
  have hres : firstErr ((shardTickOutcomes c systems).map Prod.snd) = none := by
    rw [tickOnceResult, receiveLoop_eq] at h
    exact h
  have hall := (firstErr_none_iff _).mp hres
  have houtcome : ∀ i, i < c → (dispatchTickShard systems i).2 = none := by
    intro i hi
    apply hall
    simp only [shardTickOutcomes, List.map_map, List.mem_map]
    exact ⟨i, by simpa using hi, rfl⟩
  have hlog : ∀ i, i < c →
      (dispatchTickShard systems i).1 = (List.range systems.length).map (fun j => (j, i)) := by
    intro i hi
    have := runTickSystems_ok systems i 0 (houtcome i hi)
    rw [dispatchTickShard, this]
    simp
  constructor
  · intro s hs
    have hinv : tickInvocations c systems
        = ((List.range c).map (fun i => (List.range systems.length).map (fun j => (j, i)))).flatten := by
      rw [tickInvocations, shardTickOutcomes, List.map_map]
      congr 1
      apply List.map_congr_left
      intro i hi
      exact hlog i (by simpa using hi)
    rw [hinv, filter_flatten_eq, List.map_map]
    have hpiece : ∀ i : Nat, ((List.range systems.length).map (fun j => (j, i))).filter
        (fun p => p.1 == s) = [(s, i)] := by
      intro i
      rw [List.filter_map]
      have hcomp : ((fun p : Nat × Nat => p.1 == s) ∘ fun j => (j, i)) = fun j => j == s := rfl
      rw [hcomp, range_filter_eq hs]
      rfl
    have hmaps : ((List.range c).map
          ((List.filter fun p => p.1 == s) ∘ fun i => (List.range systems.length).map fun j => (j, i)))
        = (List.range c).map (fun i => [(s, i)]) := by
      apply List.map_congr_left
      intro i _
      exact hpiece i
    rw [hmaps, flatten_singletons (fun i => (s, i)), List.map_map]
    simp
  · rw [tickOnceReceived, receiveLoop_eq]
    have hlen := invokedIn_all hres
    rw [hlen]
    simp [shardTickOutcomes]

/-- Witness for C3 at a concrete error-free pass: two shards, one tick
system that always succeeds. -/
theorem tick_once_invokes_witness :
    ((tickInvocations 2 [fun _ => none]).filter (fun p => p.1 == 0)).map Prod.snd = List.range 2
    ∧ tickOnceReceived 2 [fun _ => none] = 2 :=
  ⟨(tick_once_invokes_each_shard 2 [fun _ => none] rfl).1 0 (by decide),
    (tick_once_invokes_each_shard 2 [fun _ => none] rfl).2⟩

/-- Counterexample for C4 as stated.  With two shards and one tick system
whose hook fails on shard 0, `tickOnce` returns the first error after
receiving only one of the two shard responses: the remaining response is
left in its buffered channel rather than drained. -/
theorem tick_no_drain_counterexample :
    tickOnceResult 2 [tickFailShard0] = some .sysFailure
    ∧ tickOnceReceived 2 [tickFailShard0] = 1
    ∧ (1 : Nat) ≠ 2 :=
  ⟨rfl, rfl, by decide⟩

/-- C4 as amended.  When a shard worker returns an error for a tick
request, `tickOnce` returns the first error in shard-index receive order
and stops receiving right there — it does not drain the responses of the
remaining shards (each response sits in its own buffered channel, so no
worker blocks); only an error-free pass receives all `c` responses. -/
theorem tick_first_error_no_drain (c : Nat) (systems : List (Nat → Option GErr)) :
    tickOnceResult c systems = firstErr ((shardTickOutcomes c systems).map Prod.snd)
    ∧ tickOnceReceived c systems = invokedIn ((shardTickOutcomes c systems).map Prod.snd)
    ∧ (tickOnceResult c systems = none → tickOnceReceived c systems = c) := by
  refine ⟨by rw [tickOnceResult, receiveLoop_eq], by rw [tickOnceReceived, receiveLoop_eq], ?_⟩
  intro hok
  rw [tickOnceReceived, receiveLoop_eq] at *
  have hres : firstErr ((shardTickOutcomes c systems).map Prod.snd) = none := by
    rw [tickOnceResult, receiveLoop_eq] at hok
    exact hok
  rw [invokedIn_all hres]
  simp [shardTickOutcomes]

/-- Witness for C4's amended characterization at a concrete one-shard,
error-free pass. -/
theorem tick_first_error_no_drain_witness :
    tickOnceResult 1 [] = firstErr ((shardTickOutcomes 1 []).map Prod.snd)
    ∧ tickOnceReceived 1 [] = invokedIn ((shardTickOutcomes 1 []).map Prod.snd)
    ∧ tickOnceReceived 1 [] = 1 :=
  ⟨(tick_first_error_no_drain 1 []).1, (tick_first_error_no_drain 1 []).2.1,
    (tick_first_error_no_drain 1 []).2.2 rfl⟩

/-- C6. In the sequential lifecycle of a `CoreWorld`: submitting a valid
command before `Run` returns `WorldNotRunning`; submitting immediately
after `Stop` (from any state satisfying the lifecycle invariant) returns
`WorldNotRunning`; calling `Run` on a running world returns
`WorldAlreadyRunning`; a second sequential `Stop` returns no error.  The
final conjuncts show the invariant holds initially and is preserved by
every operation, so it covers every reachable state. -/
theorem lifecycle_errors (id : Nat) (dres : Option GErr) (s : WorldState) (hid : id ≠ 0) :
    (submitW id dres initWorld).1 = some .worldNotRunning
    ∧ (WorldInv s → (submitW id dres (stopW s).2).1 = some .worldNotRunning)
    ∧ (s.running = true → (runW s).1 = some .worldAlreadyRunning)
    ∧ (stopW (stopW s).2).1 = none
    ∧ WorldInv initWorld
    ∧ (WorldInv s →
        WorldInv (runW s).2 ∧ WorldInv (stopW s).2 ∧ WorldInv (submitW id dres s).2) := by
  refine ⟨?_, ?_, ?_, ?_, ?_, ?_⟩
  · simp [submitW, initWorld, hid]
  · intro hinv
    by_cases hr : s.running
    · simp [stopW, hr, submitW, hid]
    · have hrt : s.rt = none := hinv (by simpa using hr)
      simp [stopW, hr, submitW, hid, hrt]
  · intro hr
    simp [runW, hr]
  · by_cases hr : s.running <;> simp [stopW, hr]
  · intro _
    rfl
  · intro hinv
    refine ⟨?_, ?_, ?_⟩
    · by_cases hr : s.running <;> simp [runW, hr, WorldInv]
    · by_cases hr : s.running
      · simp [stopW, hr, WorldInv]
      · simpa [stopW, hr] using hinv
    · have hse : (submitW id dres s).2 = s := by
        by_cases h0 : id = 0
        · simp [submitW, h0]
        · cases hrt : s.rt with
          | none => simp [submitW, h0, hrt]
          | some r => by_cases hstop : r.stopping <;> simp [submitW, h0, hrt, hstop]
      rw [hse]
      exact hinv

/-- Witness for C6 at the initial world, a valid entity id and a nil
dispatch result. -/
theorem lifecycle_errors_witness :
    (submitW 1 none initWorld).1 = some .worldNotRunning
    ∧ (submitW 1 none (stopW initWorld).2).1 = some .worldNotRunning
    ∧ (stopW (stopW initWorld).2).1 = none :=
  ⟨(lifecycle_errors 1 none initWorld (by decide)).1,
    (lifecycle_errors 1 none initWorld (by decide)).2.1 (fun _ => rfl),
    (lifecycle_errors 1 none initWorld (by decide)).2.2.2.1⟩

/-- Looking up type `t` after the in-place version bump finds the bumped
component. -/
theorem find?_map_pred {α : Type} (p : α → Bool) (f : α → α)
    (hpf : ∀ y, p (f y) = p y) (l : List α) :
    (l.map f).find? p = (l.find? p).map f := by
  induction l with
  | nil => rfl
  | cons x rest ih =>
    rw [List.map_cons, List.find?_cons, List.find?_cons, hpf x]
    cases hx : p x
    · exact ih
    · rfl

theorem find_bumpAt (comps : List Component) (t : Nat) :
    (bumpAt comps t).find? (fun x => x.ctype == t)
      = (comps.find? (fun x => x.ctype == t)).map (fun c => { c with version := c.version + 1 }) := by
  have hgen := @find?_map_pred Component (fun x => x.ctype == t)
    (fun x => if (x.ctype == t) = true then { x with version := x.version + 1 } else x)
    (fun y => by by_cases hy : (y.ctype == t) = true <;> simp [hy]) comps
  rw [bumpAt, hgen]
  cases hf : comps.find? (fun x => x.ctype == t) with
  | none => rfl
  | some a =>
    have ha := List.find?_some hf
    simp only [Option.map_some']
    simp only at ha
    simp [ha]

/-- Looking up type `t` after an in-place replacement finds the new
component. -/
theorem find_replaceComp (comps : List Component) (t : Nat) (c2 : Component)
    (h : (c2.ctype == t) = true) :
    (replaceComp comps t c2).find? (fun x => x.ctype == t)
      = (comps.find? (fun x => x.ctype == t)).map (fun _ => c2) := by
  have hgen := @find?_map_pred Component (fun x => x.ctype == t)
    (fun x => if (x.ctype == t) = true then c2 else x)
    (fun y => by by_cases hy : (y.ctype == t) = true <;> simp [hy, h]) comps
  rw [replaceComp, hgen]
  cases hf : comps.find? (fun x => x.ctype == t) with
  | none => rfl
  | some a =>
    have ha := List.find?_some hf
    simp only [Option.map_some']
    simp only at ha
    simp [ha]

/-- In-place replacement preserves the stored component-type order. -/
theorem map_ctype_replaceComp (comps : List Component) (t : Nat) (c2 : Component)
    (h : c2.ctype = t) :
    (replaceComp comps t c2).map Component.ctype = comps.map Component.ctype := by
  rw [replaceComp, List.map_map]
  apply List.map_congr_left
  intro a _
  by_cases ha : (a.ctype == t) = true
  · have ha2 : a.ctype = t := by simpa using ha
    simp [Function.comp, ha, h, ha2]
  · simp [Function.comp, ha]

/-- Bumping a type no component carries is a no-op. -/
theorem bumpAt_of_absent : ∀ {comps : List Component} {t : Nat},
    comps.find? (fun x => x.ctype == t) = none → bumpAt comps t = comps := by
  intro comps t
  induction comps with
  | nil => intro _; rfl
  | cons x rest ih =>
    intro h
    rw [List.find?_cons] at h
    cases hx : (x.ctype == t) with
    | true =>
      rw [hx] at h
      simp at h
    | false =>
      rw [hx] at h
      simp only [bumpAt, List.map_cons] at ih ⊢
      rw [if_neg (by simp [hx]), ih h]

/-- Marking a type dirty leaves the components untouched. -/
theorem comps_markDirty (e : DataEntityRec) (t : Nat) : (markDirty e t).comps = e.comps := by
  by_cases h : t ∈ e.dirty <;> simp [markDirty, h]

/-- Marking a fresh type appends it to the ordered dirty list. -/
theorem dirty_markDirty_of_not_mem {e : DataEntityRec} {t : Nat} (h : t ∉ e.dirty) :
    (markDirty e t).dirty = e.dirty ++ [t] := by
  simp [markDirty, h]

/-- Marking an already-dirty type is a no-op. -/
theorem markDirty_of_mem {e : DataEntityRec} {t : Nat} (h : t ∈ e.dirty) :
    markDirty e t = e := by
  simp [markDirty, h]

/-- A marked type is dirty afterwards. -/
theorem mem_dirty_markDirty (e : DataEntityRec) (t : Nat) : t ∈ (markDirty e t).dirty := by
  by_cases h : t ∈ e.dirty <;> simp [markDirty, h]

/-- One successful step of the generic accessor on a matching
`DataComponent`: it reports found and performs the bump-and-mark side
effect. -/
theorem getForUpdateDirect_step (e' : DataEntityRec) (t expected : Nat) (c' : Component)
    (hf : getComponent e' t = some c') (hc : (c'.concrete == expected) = true)
    (hd : c'.isData = true) :
    getForUpdateDirect expected e' t
      = (true, markDirty { e' with comps := bumpAt e'.comps t } t) := by
  have hgfu : getForUpdate e' t
      = (some { c' with version := c'.version + 1 },
          markDirty { e' with comps := bumpAt e'.comps t } t) := by
    simp [getForUpdate, hf, hd]
  simp [getForUpdateDirect, hf, hc, hgfu]

/-- C5. For the generic `GetForUpdate` accessor (`getForUpdateDirect`) on
an entity holding a component of type `t`: when the stored component's
concrete type differs from the caller's expected type the call reports
not-found and leaves the whole entity — version and dirty set included —
unchanged; when it matches and the component is a `DataComponent`, the
call succeeds, bumps the stored version by exactly one per call, and `t`
occurs exactly once in the dirty list even after two such calls before a
clear. -/
theorem get_for_update_semantics (e : DataEntityRec) (t expected : Nat) (c : Component)
    (hfind : getComponent e t = some c) :
    (c.concrete ≠ expected → getForUpdateDirect expected e t = (false, e))
    ∧ (c.concrete = expected → c.isData = true → t ∉ e.dirty →
        (getForUpdateDirect expected e t).1 = true
        ∧ versionAt (getForUpdateDirect expected e t).2 t = some (c.version + 1)
        ∧ (getForUpdateDirect expected e t).2.dirty.count t = 1
        ∧ versionAt (getForUpdateDirect expected (getForUpdateDirect expected e t).2 t).2 t
            = some (c.version + 2)
        ∧ (getForUpdateDirect expected (getForUpdateDirect expected e t).2 t).2.dirty.count t
            = 1) := by
  constructor
  · intro hne
    have hb : (c.concrete == expected) = false := by simp [hne]
    simp [getForUpdateDirect, hfind, hb]
  · intro hconc hdata hdirty
    have hb : (c.concrete == expected) = true := by simp [hconc]
    have hstep1 := getForUpdateDirect_step e t expected c hfind hb hdata
    have hcomps1 : (getForUpdateDirect expected e t).2.comps = bumpAt e.comps t := by
      rw [hstep1]
      simp [markDirty, hdirty]
    have hdirty1 : (getForUpdateDirect expected e t).2.dirty = e.dirty ++ [t] := by
      rw [hstep1]
      simp [markDirty, hdirty]
    have hfind1 : getComponent (getForUpdateDirect expected e t).2 t
        = some { c with version := c.version + 1 } := by
      rw [getComponent, hcomps1, find_bumpAt]
      rw [getComponent] at hfind
      rw [hfind]
      rfl
    have hcount1 : (getForUpdateDirect expected e t).2.dirty.count t = 1 := by
      rw [hdirty1, List.count_append]
      have h0 : e.dirty.count t = 0 := List.count_eq_zero.mpr hdirty
      simp [h0]
    have hmem1 : t ∈ (getForUpdateDirect expected e t).2.dirty := by
      rw [hdirty1]
      simp
    have hstep2 := getForUpdateDirect_step (getForUpdateDirect expected e t).2 t expected
      { c with version := c.version + 1 } hfind1 hb hdata
    have hcomps2 : (getForUpdateDirect expected (getForUpdateDirect expected e t).2 t).2.comps
        = bumpAt (getForUpdateDirect expected e t).2.comps t := by
      rw [hstep2]
      simp [markDirty, hmem1]
    have hdirty2 : (getForUpdateDirect expected (getForUpdateDirect expected e t).2 t).2.dirty
        = (getForUpdateDirect expected e t).2.dirty := by
      rw [hstep2]
      simp [markDirty, hmem1]
    have hfind2 : getComponent (getForUpdateDirect expected (getForUpdateDirect expected e t).2 t).2 t
        = some { c with version := c.version + 1 + 1 } := by
      rw [getComponent, hcomps2, find_bumpAt]
      rw [getComponent] at hfind1
      rw [hfind1]
      rfl
    refine ⟨by rw [hstep1], by simp [versionAt, hfind1], hcount1, ?_, ?_⟩
    · simp only [versionAt, hfind2, Option.map_some']
    · rw [hdirty2]
      exact hcount1

/-- Witness for C5 on a one-component entity: type 1, concrete tag 7,
data component at version 0, clean dirty set. -/
theorem get_for_update_witness :
    (getForUpdateDirect 7 ⟨[⟨1, 7, true, 0⟩], []⟩ 1).1 = true
    ∧ versionAt (getForUpdateDirect 7 ⟨[⟨1, 7, true, 0⟩], []⟩ 1).2 1 = some 1
    ∧ (getForUpdateDirect 7 ⟨[⟨1, 7, true, 0⟩], []⟩ 1).2.dirty.count 1 = 1
    ∧ versionAt
        (getForUpdateDirect 7 (getForUpdateDirect 7 ⟨[⟨1, 7, true, 0⟩], []⟩ 1).2 1).2 1
        = some 2
    ∧ (getForUpdateDirect 7 (getForUpdateDirect 7 ⟨[⟨1, 7, true, 0⟩], []⟩ 1).2 1).2.dirty.count 1
        = 1 :=
  (get_for_update_semantics ⟨[⟨1, 7, true, 0⟩], []⟩ 1 7 ⟨1, 7, true, 0⟩ rfl).2 rfl rfl
    (by simp)

/-- C7. `SetData` with a nil component fails with `NilComponent` and
changes nothing.  When no component of the new component's type exists,
it attaches the component at the end of the insertion order with its
version bumped by one, and marks the type dirty.  When a `DataComponent`
of that type already exists, it replaces it in place — the stored
component-type order is unchanged — with the new component's version set
to the old version plus one, and marks the type dirty. -/
theorem set_data_semantics (e : DataEntityRec) (c ex : Component) :
    setData e none = (some .nilComponent, e)
    ∧ (getComponent e c.ctype = none →
        (setData e (some c)).1 = none
        ∧ (setData e (some c)).2.comps = e.comps ++ [{ c with version := c.version + 1 }]
        ∧ c.ctype ∈ (setData e (some c)).2.dirty)
    ∧ (getComponent e c.ctype = some ex → ex.isData = true →
        (setData e (some c)).1 = none
        ∧ (setData e (some c)).2.comps.map Component.ctype = e.comps.map Component.ctype
        ∧ getComponent (setData e (some c)).2 c.ctype = some { c with version := ex.version + 1 }
        ∧ c.ctype ∈ (setData e (some c)).2.dirty) := by
  refine ⟨rfl, ?_, ?_⟩
  · intro hnone
    have hadd : addComponent e c = (none, { e with comps := e.comps ++ [c] }) := by
      simp [addComponent, hnone]
    have hbump : bumpAt (e.comps ++ [c]) c.ctype
        = e.comps ++ [{ c with version := c.version + 1 }] := by
      rw [bumpAt, List.map_append]
      congr 1
      · exact bumpAt_of_absent hnone
      · simp
    refine ⟨?_, ?_, ?_⟩
    · simp only [setData, hnone, hadd]
    · simp only [setData, hnone, hadd]
      rw [comps_markDirty]
      exact hbump
    · simp only [setData, hnone, hadd]
      exact mem_dirty_markDirty _ _
  · intro hsome hexdata
    have hset : setData e (some c)
        = (none, markDirty
            { e with comps := replaceComp e.comps c.ctype { c with version := ex.version + 1 } }
            c.ctype) := by
      simp [setData, hsome, hexdata]
    refine ⟨by rw [hset], ?_, ?_, ?_⟩
    · rw [hset]
      show (markDirty _ _).comps.map Component.ctype = _
      rw [comps_markDirty]
      exact map_ctype_replaceComp e.comps c.ctype { c with version := ex.version + 1 } rfl
    · rw [hset]
      show getComponent (markDirty _ _) c.ctype = _
      rw [getComponent, comps_markDirty]
      rw [find_replaceComp e.comps c.ctype { c with version := ex.version + 1 } (by simp)]
      rw [getComponent] at hsome
      rw [hsome]
      rfl
    · rw [hset]
      exact mem_dirty_markDirty _ _

/-- Witness for C7: a nil set on the empty entity, a fresh attach of a
version-0 component, and an in-place replacement over a stored version-4
component yielding version 5. -/
theorem set_data_witness :
    setData (⟨[], []⟩ : DataEntityRec) none = (some .nilComponent, ⟨[], []⟩)
    ∧ (setData (⟨[], []⟩ : DataEntityRec) (some ⟨1, 7, true, 0⟩)).1 = none
    ∧ (1 : Nat) ∈ (setData (⟨[], []⟩ : DataEntityRec) (some ⟨1, 7, true, 0⟩)).2.dirty
    ∧ getComponent (setData (⟨[⟨1, 7, true, 4⟩], []⟩ : DataEntityRec) (some ⟨1, 7, true, 0⟩)).2 1
        = some ⟨1, 7, true, 5⟩ :=
  ⟨(set_data_semantics ⟨[], []⟩ ⟨1, 7, true, 0⟩ ⟨1, 7, true, 4⟩).1,
    ((set_data_semantics ⟨[], []⟩ ⟨1, 7, true, 0⟩ ⟨1, 7, true, 4⟩).2.1 rfl).1,
    ((set_data_semantics ⟨[], []⟩ ⟨1, 7, true, 0⟩ ⟨1, 7, true, 4⟩).2.1 rfl).2.2,
    ((set_data_semantics ⟨[⟨1, 7, true, 4⟩], []⟩ ⟨1, 7, true, 0⟩ ⟨1, 7, true, 4⟩).2.2
      rfl rfl).2.2.1⟩

/-- C10. `DirtyDataComponents` returns, in dirty-mark order, exactly the
stored components of those dirty types that currently resolve to a
`DataComponent`; a dirty type whose component is absent or not a
`DataComponent` is silently skipped, so the result is never longer than
`DirtyTypes`. -/
theorem dirty_data_components_spec (e : DataEntityRec) :
    (dirtyDataComponents e).map Component.ctype
        = e.dirty.filter (fun t => (getData e t).isSome)
    ∧ (∀ c ∈ dirtyDataComponents e, getComponent e c.ctype = some c ∧ c.isData = true)
    ∧ (dirtyDataComponents e).length ≤ e.dirty.length := by
  have hget : ∀ t c, getData e t = some c →
      getComponent e t = some c ∧ c.isData = true ∧ c.ctype = t := by
    intro t c h
    cases hf : getComponent e t with
    | none => simp [getData, hf] at h
    | some c0 =>
      simp only [getData, hf] at h
      by_cases hd : c0.isData = true
      · rw [if_pos hd] at h
        have hc := Option.some.inj h
        subst hc
        refine ⟨rfl, hd, ?_⟩
        rw [getComponent] at hf
        have := List.find?_some hf
        simpa using this
      · rw [if_neg hd] at h
        simp at h
  refine ⟨?_, ?_, ?_⟩
  · rw [dirtyDataComponents]
    induction e.dirty with
    | nil => rfl
    | cons t rest ih =>
      rw [List.filterMap_cons, List.filter_cons]
      cases hg : getData e t with
      | none => simp [hg, ih]
      | some c =>
        have hc := hget t c hg
        simp [hg, ih, hc.2.2]
  · intro c hc
    rw [dirtyDataComponents] at hc
    obtain ⟨t, _, hgd⟩ := List.mem_filterMap.mp hc
    obtain ⟨hcomp, hdata, hct⟩ := hget t c hgd
    rw [hct]
    exact ⟨hcomp, hdata⟩
  · rw [dirtyDataComponents]
    exact List.length_filterMap_le _ _

/-- Witness for C10 on an entity whose dirty list holds a data type (1)
and a type with no component (2): the returned list keeps only type 1 and
is strictly shorter than the dirty list. -/
theorem dirty_data_components_witness :
    (dirtyDataComponents (⟨[⟨1, 7, true, 0⟩], [1, 2]⟩ : DataEntityRec)).map Component.ctype
        = (⟨[⟨1, 7, true, 0⟩], [1, 2]⟩ : DataEntityRec).dirty.filter
            (fun t => (getData ⟨[⟨1, 7, true, 0⟩], [1, 2]⟩ t).isSome)
    ∧ (getComponent (⟨[⟨1, 7, true, 0⟩], [1, 2]⟩ : DataEntityRec)
          (⟨1, 7, true, 0⟩ : Component).ctype = some ⟨1, 7, true, 0⟩
        ∧ (⟨1, 7, true, 0⟩ : Component).isData = true)
    ∧ (dirtyDataComponents (⟨[⟨1, 7, true, 0⟩], [1, 2]⟩ : DataEntityRec)).length
        ≤ (⟨[⟨1, 7, true, 0⟩], [1, 2]⟩ : DataEntityRec).dirty.length :=
  ⟨(dirty_data_components_spec ⟨[⟨1, 7, true, 0⟩], [1, 2]⟩).1,
    (dirty_data_components_spec ⟨[⟨1, 7, true, 0⟩], [1, 2]⟩).2.1 ⟨1, 7, true, 0⟩ (by decide),
    (dirty_data_components_spec ⟨[⟨1, 7, true, 0⟩], [1, 2]⟩).2.2⟩

/-- Errors from `Add` leave the store untouched. -/
theorem addEnt_err_unchanged (store : List (Nat × EntRec)) (ent? : Option EntRec)
    (h : (addEnt store ent?).1.isSome) : (addEnt store ent?).2 = store := by
  cases ent? with
  | none => rfl
  | some ent =>
    by_cases h0 : ent.id = 0
    · simp [addEnt, h0]
    · by_cases hp : (store.lookup ent.id).isSome
      · simp [addEnt, h0, hp]
      · simp [addEnt, h0, hp] at h

/-- C9. `MapEntityManager.Create` invokes the entity factory before any
existence check — for every non-zero id the factory runs, whatever the
store holds.  A factory error is returned as-is, a nil factory result
fails with a nil-entity error, and a factory result whose `Id()` differs
from the requested id fails with the id-mismatch error; in each of these
cases nothing is inserted.  More generally, every failing `Create` —
`EntityAlreadyExists` included — leaves the store's contents unchanged. -/
theorem create_entity_semantics (factory : Nat → FactoryOut) (store : List (Nat × EntRec))
    (id : Nat) (err : GErr) (ent : EntRec) :
    (id ≠ 0 → (createEnt factory store id).1 = true)
    ∧ (id ≠ 0 → factory id = .fail err →
        createEnt factory store id = (true, some err, store))
    ∧ (id ≠ 0 → factory id = .nilEnt →
        createEnt factory store id = (true, some .nilEntity, store))
    ∧ (id ≠ 0 → factory id = .made ent → ent.id ≠ id →
        createEnt factory store id = (true, some .idMismatch, store))
    ∧ ((createEnt factory store id).2.1.isSome → (createEnt factory store id).2.2 = store) := by
  refine ⟨?_, ?_, ?_, ?_, ?_⟩
  · intro h0
    cases hf : factory id with
    | fail e2 => simp [createEnt, h0, hf]
    | nilEnt => simp [createEnt, h0, hf]
    | made ent2 =>
      by_cases hm : ent2.id ≠ id
      · simp [createEnt, h0, hf, hm]
      · rcases hadd : addEnt store (some ent2) with ⟨r, st⟩
        cases r <;> simp [createEnt, h0, hf, hm, hadd]
  · intro h0 hf
    simp [createEnt, h0, hf]
  · intro h0 hf
    simp [createEnt, h0, hf]
  · intro h0 hf hm
    simp [createEnt, h0, hf, hm]
  · intro hsome
    by_cases h0 : id = 0
    · simp [createEnt, h0]
    · cases hf : factory id with
      | fail e2 => simp [createEnt, h0, hf]
      | nilEnt => simp [createEnt, h0, hf]
      | made ent2 =>
        by_cases hm : ent2.id ≠ id
        · simp [createEnt, h0, hf, hm]
        · rcases hadd : addEnt store (some ent2) with ⟨r, st⟩
          cases r with
          | some e3 =>
            have hst := addEnt_err_unchanged store (some ent2) (by rw [hadd]; rfl)
            rw [hadd] at hst
            simp [createEnt, h0, hf, hm, hadd, hst]
          | none =>
            exfalso
            rw [createEnt, if_neg h0] at hsome
            simp [hf, hm, hadd] at hsome

/-- Witness for C9: a factory that always fails, an empty store, id 1. -/
theorem create_entity_witness :
    (createEnt (fun _ => .fail .sysFailure) [] 1).1 = true
    ∧ createEnt (fun _ => .fail .sysFailure) [] 1 = (true, some .sysFailure, [])
    ∧ (createEnt (fun _ => .fail .sysFailure) [] 1).2.2 = [] :=
  ⟨(create_entity_semantics (fun _ => .fail .sysFailure) [] 1 .sysFailure ⟨1⟩).1 (by decide),
    (create_entity_semantics (fun _ => .fail .sysFailure) [] 1 .sysFailure ⟨1⟩).2.1
      (by decide) rfl,
    (create_entity_semantics (fun _ => .fail .sysFailure) [] 1 .sysFailure ⟨1⟩).2.2.2.2 rfl⟩

end Ginka
